import Mathlib

/-!
Verification of the commit-plan generation and repository synthesis engine
of the draw-on-git-history application.

The TypeScript sources are shallowly embedded:

* JavaScript `Date` values at local midnight are modelled as proleptic
  Gregorian calendar triples (`IsoDate`), and `Date` arithmetic
  (`setDate`, `getTime` differences) as day-number arithmetic via
  `daysFromCivil` / `civilFromDays`, the standard civil-calendar
  conversion used by ECMAScript date computation.  The environment is
  modelled at a fixed UTC offset (no daylight-saving transitions), so a
  day is exactly 86400 seconds.
* A `YYYY-MM-DD` string is modelled by its calendar triple; rendering of
  a triple is injective on the values produced here, so string equality
  of rendered dates coincides with triple equality.
* JavaScript numbers arising in the mulberry32 RNG are modelled exactly:
  32-bit wrapping operations act on `Nat` values below 2^32, and the
  generated float `u / 2^32` is an exact rational.
* The mutable RNG closure of `createRng` is modelled by explicit state
  passing: the state is the accumulating seed counter, and each call
  returns the drawn rational and the successor state.
* Thrown exceptions are modelled with `Except GenError`.
-/

/-- Error taxonomy of the server: one constructor per distinct throw site
reached by the embedded code (domain validation, random-range failure,
path conflicts and git-log readback). -/
inductive GenError where
  | invalidDate (field : String)
  | endDateMismatch
  | dayCountMismatch
  | invalidGridShape (rows cols : Nat)
  | gridRowCountMismatch
  | gridRowLengthMismatch (row : Nat)
  | invalidCellLevel (row col : Nat)
  | missingIntensity (level : Int)
  | invalidIntensityRange (level : Int)
  | invalidRandomRange
  | pathAlreadyExists
  | logReadFailed
deriving DecidableEq

/-- Calendar date triple, the model of a `YYYY-MM-DD` string and of a JS
`Date` at local midnight. -/
structure IsoDate where
  year : Int
  month : Int
  day : Int
deriving DecidableEq

/-- Gregorian leap-year rule. -/
def isLeapYear (y : Int) : Bool :=
  (y % 4 = 0 && y % 100 ≠ 0) || y % 400 = 0

/-- Number of days of month `m` in year `y`. -/
def daysInMonth (y m : Int) : Int :=
  if m = 2 then (if isLeapYear y then 29 else 28)
  else if m = 4 ∨ m = 6 ∨ m = 9 ∨ m = 11 then 30
  else 31

/-- Model of `assertValidIsoDate`'s acceptance condition: the source checks
the `\d{4}-\d{2}-\d{2}` shape, parses, and compares the re-formatted
string with the input.  `formatIsoDate` renders the year unpadded, so a
zero-padded year below 1000 never survives the roundtrip; a string passes
all three steps exactly when it denotes a real calendar date whose year
has exactly four digits, i.e. lies in [1000, 9999]. -/
def isValidIsoDate (d : IsoDate) : Bool :=
  1000 ≤ d.year && d.year ≤ 9999 && 1 ≤ d.month && d.month ≤ 12 &&
    1 ≤ d.day && d.day ≤ daysInMonth d.year d.month

/-- Model of `assertValidIsoDate` (utils/date.ts): throws `ValidationError`
when the date is not a valid ISO date. -/
def assertValidIsoDate (d : IsoDate) (field : String) : Except GenError Unit :=
  if isValidIsoDate d then .ok () else .error (.invalidDate field)

/-- Day number of a calendar date (days since 1970-01-01, negative before).
Model of the timestamp `new Date(s + "T00:00:00").getTime() / 86400000` at
a fixed UTC offset. -/
def daysFromCivil (d : IsoDate) : Int :=
  let y := d.year - (if d.month ≤ 2 then 1 else 0)
  let doy := (153 * (d.month + (if d.month > 2 then -3 else 9)) + 2) / 5 + d.day - 1
  365 * y + y / 4 - y / 100 + y / 400 + doy - 719468

/-- Calendar date of a day number; inverse of `daysFromCivil`.  Uses the
standard era / century / four-year-block / year decomposition of the
Gregorian calendar. -/
def civilFromDays (n : Int) : IsoDate :=
  let z := n + 719468
  let era := z / 146097
  let doe := z - era * 146097
  let c := min (doe / 36524) 3
  let dcent := doe - 36524 * c
  let q := dcent / 1461
  let dquad := dcent - 1461 * q
  let r := min (dquad / 365) 3
  let doy := dquad - 365 * r
  let yoe := r + 4 * q + 100 * c
  let y := yoe + era * 400
  let mp := (5 * doy + 2) / 153
  let d := doy - (153 * mp + 2) / 5 + 1
  let m := mp + (if mp < 10 then 3 else -9)
  ⟨y + (if m ≤ 2 then 1 else 0), m, d⟩

/-- Model of `addDays` (utils/date.ts): validate, then advance by calendar
days (`setDate` is exact day addition at a fixed offset). -/
def addDays (d : IsoDate) (days : Int) : Except GenError IsoDate :=
  match assertValidIsoDate d "date" with
  | .error e => .error e
  | .ok _ => .ok (civilFromDays (daysFromCivil d + days))

/-- Pure core of `addDays`, used where the argument is already validated. -/
def addDaysCore (d : IsoDate) (days : Int) : IsoDate :=
  civilFromDays (daysFromCivil d + days)

/-- Model of `diffInDays` (utils/date.ts): at a fixed offset the
millisecond difference of two local midnights is an exact multiple of a
day, so the floor division is an exact day-number difference. -/
def diffInDays (startDate endDate : IsoDate) : Except GenError Int :=
  match assertValidIsoDate startDate "startDate" with
  | .error e => .error e
  | .ok _ =>
    match assertValidIsoDate endDate "endDate" with
    | .error e => .error e
    | .ok _ => .ok (daysFromCivil endDate - daysFromCivil startDate)

/-- Decimal rendering padded with leading zeros, the model of
`String(n).padStart(len, "0")` for nonnegative n. -/
def padNum (len : Nat) (n : Int) : String :=
  let s := toString n.toNat
  String.mk (List.replicate (len - s.length) '0') ++ s

/-- Rendering of a date triple, the model of `formatIsoDate` and of
template interpolation of a date string: the year is interpolated
unpadded (the source pads only month and day with `padStart(2, "0")`),
so valid dates (four-digit years) render as `YYYY-MM-DD`. -/
def renderIsoDate (d : IsoDate) : String :=
  toString d.year.toNat ++ "-" ++ padNum 2 d.month ++ "-" ++ padNum 2 d.day

/-- Product of two 32-bit values reduced to 32 bits, the model of
`Math.imul` on unsigned bit patterns. -/
def imul32 (a b : Nat) : Nat := a * b % 4294967296

/-- Model of `hashSeed` (utils/random.ts): FNV-1a style hash of the seed
string's UTF-16 code units into a 32-bit value.  Seeds occurring here are
ASCII, where code units and Unicode scalar values agree. -/
def hashSeed (seed : String) : Nat :=
  seed.data.foldl (fun h c => imul32 (h ^^^ c.toNat) 16777619) 2166136261

/-- Model of `createRng` (utils/random.ts): the generator closure is
reduced to its captured mutable state, initially the hashed seed. -/
def createRng (seed : String) : Nat := hashSeed seed

/-- One generator call (the mulberry32 mixing step in `createRng`): the
state grows by `0x6D2B79F5` and the output is mixed from the state's low
32 bits.  JS bitwise operators coerce modulo 2^32, which the explicit
reductions reproduce; the result is the drawn float in `[0, 1)` and the
new state. -/
def rngNext (state : Nat) : ℚ × Nat :=
  let s := state + 0x6D2B79F5
  let t0 := s % 4294967296
  let t1 := imul32 (t0 ^^^ (t0 / 32768)) (t0 ||| 1)
  let t2 := t1 ^^^ ((t1 + imul32 (t1 ^^^ (t1 / 128)) (t1 ||| 61)) % 4294967296)
  let out := t2 ^^^ (t2 / 16384)
  ((out : ℚ) / 4294967296, s)

/-- Model of `randomInt` (utils/random.ts): round the bounds inward with
`Math.ceil` / `Math.floor`, reject an empty rounded range, then map one
generator draw onto the inclusive integer range.  The generator closure is
passed as a state-transition function, the drawn value is consumed after
the range check, exactly as in the source. -/
def randomInt (rng : Nat → ℚ × Nat) (mn mx : ℚ) (s : Nat) :
    Except GenError (Int × Nat) :=
  let clampedMin := Int.ceil mn
  let clampedMax := Int.floor mx
  if clampedMax < clampedMin then .error .invalidRandomRange
  else
    let v := (rng s).1
    .ok (Int.floor (v * ((clampedMax : ℚ) - clampedMin + 1)) + clampedMin, (rng s).2)

/-- Grid payload (shared/src/types.ts): levels organised by row, then
column.  Cell values are modelled as integers; `validateGrid` restricts
them to `{0..4}`. -/
structure GridPayload where
  rows : Nat
  cols : Nat
  levels : List (List Int)

/-- One flattened grid cell: its calendar date and intensity level. -/
structure FlatCell where
  date : IsoDate
  level : Int
deriving DecidableEq

/-- Cell validation loop of `validateGrid`: first offending level, if any,
by ascending column inside a row. -/
def validateCells (rowIndex : Nat) (colIndex : Nat) : List Int → Except GenError Unit
  | [] => .ok ()
  | l :: ls =>
    if l ∈ ([0, 1, 2, 3, 4] : List Int) then validateCells rowIndex (colIndex + 1) ls
    else .error (.invalidCellLevel rowIndex colIndex)

/-- Row validation loop of `validateGrid`: row length, then cells, by
ascending row. -/
def validateRows (cols : Nat) (rowIndex : Nat) : List (List Int) → Except GenError Unit
  | [] => .ok ()
  | r :: rs =>
    if r.length ≠ cols then .error (.gridRowLengthMismatch rowIndex)
    else
      match validateCells rowIndex 0 r with
      | .error e => .error e
      | .ok _ => validateRows cols (rowIndex + 1) rs

/-- Model of `validateGrid` (domain/grid.ts). -/
def validateGrid (g : GridPayload) : Except GenError Unit :=
  if g.rows ≠ 7 ∨ g.cols ≠ 51 then .error (.invalidGridShape g.rows g.cols)
  else if g.levels.length ≠ g.rows then .error .gridRowCountMismatch
  else validateRows g.cols 0 g.levels

/-- Pure core of `getDateForCell` (domain/grid.ts): the cell's date is the
start date advanced by `colIndex * 7 + rowIndex` days. -/
def dateForCellCore (startDate : IsoDate) (rowIndex colIndex : Nat) : IsoDate :=
  addDaysCore startDate ((colIndex : Int) * 7 + rowIndex)

/-- Model of `getDateForCell` (domain/grid.ts), including the start-date
validation it performs. -/
def getDateForCell (startDate : IsoDate) (rowIndex colIndex : Nat) :
    Except GenError IsoDate := do
  _ ← assertValidIsoDate startDate "startDate"
  .ok (dateForCellCore startDate rowIndex colIndex)

/-- The cell list built by `flattenGrid`'s nested loops: columns outside,
rows inside.  Out-of-range indexing cannot occur after validation; the
total `getD` accesses mirror the JS index expressions. -/
def flattenCells (g : GridPayload) (startDate : IsoDate) : List FlatCell :=
  (List.range g.cols).flatMap fun colIndex =>
    (List.range g.rows).map fun rowIndex =>
      ⟨dateForCellCore startDate rowIndex colIndex,
        (g.levels.getD rowIndex []).getD colIndex 0⟩

/-- Model of `flattenGrid` (domain/grid.ts): validate the grid, then
flatten.  Each loop iteration's `getDateForCell` re-validates the start
date; as the validated grid is non-empty (7 x 51), this is equivalent to
one up-front check, hoisted here. -/
def flattenGrid (g : GridPayload) (startDate : IsoDate) :
    Except GenError (List FlatCell) :=
  match validateGrid g with
  | .error e => .error e
  | .ok _ =>
    match assertValidIsoDate startDate "startDate" with
    | .error e => .error e
    | .ok _ => .ok (flattenCells g startDate)

/-- Intensity map (shared/src/types.ts): per-level inclusive commit-count
bounds.  The JS `Record` lookup by numeric key is modelled as a partial
function; the HTTP schema enforces integer bounds. -/
structure CommitIntensityMap where
  minByLevel : Int → Option Int
  maxByLevel : Int → Option Int

/-- Per-day commit plan entry (shared/src/types.ts). -/
structure CommitPlanEntry where
  date : IsoDate
  level : Int
  commitCount : Int
deriving DecidableEq

/-- Requested date range (shared/src/types.ts). -/
structure DateRange where
  startDate : IsoDate
  endDate : IsoDate
deriving DecidableEq

/-- Plan summary (shared/src/types.ts). -/
structure CommitPlanSummary where
  totalCommits : Int
  activeDays : Nat
  firstGridDate : IsoDate
  lastGridDate : IsoDate
  requestedRange : DateRange
deriving DecidableEq

/-- Model of `getCommitCountForLevel` (domain/commitPlan.ts): undefined
bounds are rejected first, level 0 returns 0 before the range check and
without consuming a draw, an inverted range is rejected, and otherwise one
`randomInt` draw is taken. -/
def getCommitCountForLevel (level : Int) (im : CommitIntensityMap)
    (rng : Nat → ℚ × Nat) (s : Nat) : Except GenError (Int × Nat) :=
  match im.minByLevel level, im.maxByLevel level with
  | none, _ => .error (.missingIntensity level)
  | some _, none => .error (.missingIntensity level)
  | some mn, some mx =>
    if level = 0 then .ok (0, s)
    else if mn > mx then .error (.invalidIntensityRange level)
    else randomInt rng (mn : ℚ) (mx : ℚ) s

/-- The `flattened.map` step of `buildCommitPlan`: the mapped closure
mutates the shared generator, modelled by threading its state through the
list in order. -/
def assignCounts (im : CommitIntensityMap) (rng : Nat → ℚ × Nat) :
    List FlatCell → Nat → Except GenError (List CommitPlanEntry × Nat)
  | [], s => .ok ([], s)
  | cell :: cells, s =>
    match getCommitCountForLevel cell.level im rng s with
    | .error e => .error e
    | .ok (count, s') =>
      match assignCounts im rng cells s' with
      | .error e => .error e
      | .ok (rest, s'') => .ok (⟨cell.date, cell.level, count⟩ :: rest, s'')

/-- Model of `summarizePlan` (domain/commitPlan.ts). -/
def summarizePlan (plan : List CommitPlanEntry) (requestedRange : DateRange) :
    CommitPlanSummary where
  totalCommits := (plan.map (·.commitCount)).sum
  activeDays := (plan.filter (fun e => e.commitCount > 0)).length
  firstGridDate := ((plan.head?).map (·.date)).getD requestedRange.startDate
  lastGridDate := ((plan.getLast?).map (·.date)).getD requestedRange.endDate
  requestedRange := requestedRange

/-- The expected end date computed by `buildCommitPlan`:
`startDate + (7 * 51 - 1) days`. -/
def expectedEndDate (startDate : IsoDate) : IsoDate :=
  addDaysCore startDate (7 * 51 - 1)

/-- Model of `buildCommitPlan` (domain/commitPlan.ts). -/
def buildCommitPlan (grid : GridPayload) (dateRange : DateRange)
    (im : CommitIntensityMap) (randomSeed : Option String) :
    Except GenError (List CommitPlanEntry × CommitPlanSummary) :=
  match assertValidIsoDate dateRange.startDate "startDate" with
  | .error e => .error e
  | .ok _ =>
  match assertValidIsoDate dateRange.endDate "endDate" with
  | .error e => .error e
  | .ok _ =>
  match addDays dateRange.startDate (7 * 51 - 1) with
  | .error e => .error e
  | .ok expectedEnd =>
  if dateRange.endDate ≠ expectedEnd then .error .endDateMismatch
  else
  match diffInDays dateRange.startDate dateRange.endDate with
  | .error e => .error e
  | .ok diffDays =>
  if diffDays ≠ 7 * 51 - 1 then .error .dayCountMismatch
  else
  let seed := randomSeed.getD
    (renderIsoDate dateRange.startDate ++ ":" ++ renderIsoDate dateRange.endDate)
  match flattenGrid grid dateRange.startDate with
  | .error e => .error e
  | .ok flattened =>
  match assignCounts im rngNext flattened (createRng seed) with
  | .error e => .error e
  | .ok (plan, _) => .ok (plan, summarizePlan plan dateRange)

/-- Timestamp (seconds at a fixed offset) of `date` at a full hour; model
of `new Date(isoDate + "T<hour>:00:00")`. -/
def dateAtHour (d : IsoDate) (hour : Int) : Int :=
  86400 * daysFromCivil d + hour * 3600

/-- Slot loop of `buildCommitTimes` for `count > 1`: iterate `fuel` times
from slot index `i`, partitioning the window into `count` equal-width
slots and drawing one offset per slot (a degenerate slot takes its
start). -/
def buildSlotTimes (rng : Nat → ℚ × Nat) (start secondsRange count : Int) :
    Nat → Int → Nat → Except GenError (List Int × Nat)
  | 0, _, s => .ok ([], s)
  | fuel + 1, i, s =>
    let slotStart := i * secondsRange / count
    let slotEnd := (i + 1) * secondsRange / count
    let maxOffset := max slotStart (slotEnd - 1)
    let draw : Except GenError (Int × Nat) :=
      if maxOffset > slotStart then randomInt rng (slotStart : ℚ) (maxOffset : ℚ) s
      else .ok (slotStart, s)
    match draw with
    | .error e => .error e
    | .ok (offsetSeconds, s') =>
      match buildSlotTimes rng start secondsRange count fuel (i + 1) s' with
      | .error e => .error e
      | .ok (rest, s'') => .ok ((start + offsetSeconds) :: rest, s'')

/-- Model of `buildCommitTimes` (services/gitService.ts): distributes
`count` commit timestamps inside the `[09:00, 20:00)` window of the day,
in slot order. -/
def buildCommitTimes (rng : Nat → ℚ × Nat) (date : IsoDate) (count : Int)
    (s : Nat) : Except GenError (List Int × Nat) :=
  let startHour : Int := 9
  let endHour : Int := 20
  let start := dateAtHour date startHour
  let secondsRange := (endHour - startHour) * 60 * 60
  if count ≤ 0 then .ok ([], s)
  else if secondsRange ≤ 0 then .ok ([start], s)
  else if count = 1 then
    match randomInt rng 0 (max ((secondsRange : ℚ) - 1) 0) s with
    | .error e => .error e
    | .ok (offsetSeconds, s') => .ok ([start + offsetSeconds], s')
  else buildSlotTimes rng start secondsRange count count.toNat 0 s

/-- Alphabet of `generateToken` (services/fileMutationService.ts). -/
def tokenAlphabet : List Char :=
  "abcdefghijklmnopqrstuvwxyz0123456789".data

/-- Model of `generateToken`: draw `length` alphabet indices from the
generator. -/
def generateToken (rng : Nat → ℚ × Nat) :
    Nat → Nat → Except GenError (List Char × Nat)
  | 0, s => .ok ([], s)
  | n + 1, s =>
    match randomInt rng 0 ((tokenAlphabet.length : ℚ) - 1) s with
    | .error e => .error e
    | .ok (index, s') =>
      match generateToken rng n s' with
      | .error e => .error e
      | .ok (rest, s'') => .ok (tokenAlphabet.getD index.toNat '?' :: rest, s'')

/-- Mutation record of the dump file
(services/fileMutationService.ts). -/
structure DumpMutation where
  timestamp : String
  commitIndex : Nat
  payload : String
deriving DecidableEq

/-- Model of `buildMutation`: a 16-character token and a traceable
payload; `now` models the wall-clock ISO timestamp. -/
def buildMutation (rng : Nat → ℚ × Nat) (now dateLabel : String)
    (commitIndex : Nat) (s : Nat) : Except GenError (DumpMutation × Nat) :=
  match generateToken rng 16 s with
  | .error e => .error e
  | .ok (token, s') =>
    .ok (⟨now, commitIndex,
      dateLabel ++ "::" ++ toString commitIndex ++ "::" ++ String.mk token⟩, s')

/-- Line appended for one mutation (`appendDumpMutation`). -/
def dumpMutationLine (m : DumpMutation) : String :=
  m.timestamp ++ " :: " ++ toString m.commitIndex ++ " :: " ++ m.payload ++ "\n"

/-- Observable side effects of `generateRepository`, in program order:
filesystem mutations, git invocations and progress emissions. -/
inductive RepoEffect where
  | progressEmit (percent : Int) (message : Option String)
  | mkdir (path : String)
  | gitInit
  | gitConfig (key value : String)
  | writeMetadata (path generatedAt : String)
  | writeDumpHeader
  | gitAdd (file : String)
  | appendDump (line : String)
  | gitCommit (message : String) (timestamp : Int)
deriving DecidableEq

/-- Options of `generateRepository` (services/gitService.ts).  The
optional `onProgress` callback is modelled by its presence; `dryRun`
models the truthiness test of the optional flag. -/
structure GenerateRepoOptions where
  repoPath : String
  plan : List CommitPlanEntry
  summary : CommitPlanSummary
  authorName : String
  authorEmail : String
  randomSeed : Option String
  dryRun : Bool
  hasProgressCallback : Bool

/-- The deduplicating `reportProgress` closure of `generateRepository`:
emits the floored percentage when forced or changed, and returns the new
`lastPercent`. -/
def reportProgress (hasCallback : Bool) (totalCommits completedCommits lastPercent : Int)
    (message : Option String) (force : Bool) : List RepoEffect × Int :=
  if !hasCallback then ([], lastPercent)
  else
    let percent := if totalCommits > 0 then completedCommits * 100 / totalCommits else 0
    if !force && percent = lastPercent then ([], lastPercent)
    else ([.progressEmit percent message], percent)

/-- Mutable loop state of the commit-writing phase: generator state,
commits written so far, last reported percent. -/
structure SynthState where
  rngState : Nat
  completedCommits : Int
  lastPercent : Int

/-- Inner commit loop of `generateRepository`: one mutation append, one
stage and one commit per timestamp, followed by a deduplicated progress
report. -/
def commitTimesLoop (rng : Nat → ℚ × Nat) (hasCallback : Bool)
    (totalCommits : Int) (now dateLabel : String) :
    List Int → Nat → SynthState → List RepoEffect × Except GenError SynthState
  | [], _, st => ([], .ok st)
  | t :: ts, i, st =>
    match buildMutation rng now dateLabel (i + 1) st.rngState with
    | .error e => ([], .error e)
    | .ok (mutation, s') =>
      let effs : List RepoEffect :=
        [.appendDump (dumpMutationLine mutation), .gitAdd "dump.txt",
          .gitCommit ("chore(history): " ++ dateLabel ++ " #" ++ toString (i + 1)) t]
      let completed := st.completedCommits + 1
      let (progressEffs, last') :=
        reportProgress hasCallback totalCommits completed st.lastPercent
          (some "Writing commits") false
      let (restEffs, rest) :=
        commitTimesLoop rng hasCallback totalCommits now dateLabel ts (i + 1)
          ⟨s', completed, last'⟩
      (effs ++ progressEffs ++ restEffs, rest)

/-- Outer plan loop of `generateRepository`: entries with a positive
commit count produce their intraday commits in order. -/
def commitEntriesLoop (rng : Nat → ℚ × Nat) (hasCallback : Bool)
    (totalCommits : Int) (now : String) :
    List CommitPlanEntry → SynthState → List RepoEffect × Except GenError SynthState
  | [], st => ([], .ok st)
  | entry :: entries, st =>
    if entry.commitCount ≤ 0 then
      commitEntriesLoop rng hasCallback totalCommits now entries st
    else
      match buildCommitTimes rng entry.date entry.commitCount st.rngState with
      | .error e => ([], .error e)
      | .ok (commitTimes, s') =>
        let (effs, outcome) :=
          commitTimesLoop rng hasCallback totalCommits now (renderIsoDate entry.date)
            commitTimes 0 ⟨s', st.completedCommits, st.lastPercent⟩
        match outcome with
        | .error e => (effs, .error e)
        | .ok st' =>
          let (restEffs, rest) :=
            commitEntriesLoop rng hasCallback totalCommits now entries st'
          (effs ++ restEffs, rest)

/-- The mutation-log seed derived by `generateRepository`: the explicit
seed when present, else `firstGridDate:lastGridDate`. -/
def mutationLogSeed (options : GenerateRepoOptions) : String :=
  options.randomSeed.getD
    (renderIsoDate options.summary.firstGridDate ++ ":" ++
      renderIsoDate options.summary.lastGridDate)

/-- Initial state of the RNG that drives mutation tokens and commit
timestamps in `generateRepository`: built by `createRng` from the
mutation-log seed suffixed with `":mutations"`. -/
def mutationRngState (options : GenerateRepoOptions) : Nat :=
  createRng (mutationLogSeed options ++ ":mutations")

/-- Model of `generateRepository` (services/gitService.ts).  `pathExists`
models the `fs.access` probe of the target path, `now` the wall clock,
and `gitLogOutcome` the stdout of the final `git log` readback (`none`
models its failure).  The result pairs the returned log sample (or the
thrown error) with the chronological effect trace. -/
def generateRepository (options : GenerateRepoOptions) (pathExists : Bool)
    (now : String) (gitLogOutcome : Option (List String)) :
    Except GenError (List String) × List RepoEffect :=
  if pathExists then (.error .pathAlreadyExists, [])
  else if options.dryRun then (.ok [], [])
  else
    let totalCommits := options.summary.totalCommits
    let (effs0, last0) :=
      reportProgress options.hasProgressCallback totalCommits 0 (-1)
        (some "Initializing repository") true
    let setupEffs : List RepoEffect :=
      [.mkdir options.repoPath, .gitInit,
        .gitConfig "user.name" options.authorName,
        .gitConfig "user.email" options.authorEmail,
        .writeMetadata (options.repoPath ++ "/history.json") now,
        .writeDumpHeader, .gitAdd "history.json"]
    let (effs1, last1) :=
      reportProgress options.hasProgressCallback totalCommits 0 last0
        (some "Writing commits") true
    let s0 := mutationRngState options
    let (loopEffs, outcome) :=
      commitEntriesLoop rngNext options.hasProgressCallback totalCommits now
        options.plan ⟨s0, 0, last1⟩
    match outcome with
    | .error e => (.error e, effs0 ++ setupEffs ++ effs1 ++ loopEffs)
    | .ok _ =>
      let finalEffs : List RepoEffect :=
        if options.hasProgressCallback then
          if totalCommits = 0 then [.progressEmit 100 (some "No commits to write")]
          else [.progressEmit 100 (some "Finalizing")]
        else []
      let result : Except GenError (List String) :=
        match gitLogOutcome with
        | some lines => .ok lines
        | none => .error .logReadFailed
      (result, effs0 ++ setupEffs ++ effs1 ++ loopEffs ++ finalEffs)

/-- Status values of progress updates (progressService). -/
inductive ProgressStatus where
  | pending
  | running
  | complete
  | error
deriving DecidableEq

/-- Progress payload stored and published per id (progressService).  The
`progress` field is a JS number, modelled as a rational. -/
structure ProgressState where
  id : String
  status : ProgressStatus
  progress : ℚ
  message : Option String
  error : Option String
  updatedAt : String
deriving DecidableEq

/-- The module-level progress store, a map from id to latest state. -/
abbrev ProgressStore : Type := List (String × ProgressState)

/-- Lookup in the store (`progressStore.get`). -/
def storeGet : ProgressStore → String → Option ProgressState
  | [], _ => none
  | (k, v) :: rest, id => if k = id then some v else storeGet rest id

/-- Insert-or-replace in the store (`progressStore.set`). -/
def storeSet : ProgressStore → String → ProgressState → ProgressStore
  | [], id, st => [(id, st)]
  | (k, v) :: rest, id, st =>
    if k = id then (id, st) :: rest else (k, v) :: storeSet rest id st

/-- Model of `clampProgress`: round to the nearest integer (JS
`Math.round`, halves towards positive infinity), then clamp into
`[0, 100]`. -/
def clampProgress (value : ℚ) : Int :=
  min 100 (max 0 (Int.floor (value + 1 / 2)))

/-- Model of `getProgress`. -/
def getProgress (store : ProgressStore) (id : String) : Option ProgressState :=
  storeGet store id

/-- Model of `ensureProgress`: get-or-create a pending record; `now`
models the wall clock. -/
def ensureProgress (id now : String) (store : ProgressStore) :
    ProgressState × ProgressStore :=
  match storeGet store id with
  | some existing => (existing, store)
  | none =>
    let st : ProgressState :=
      ⟨id, .pending, 0, some "Waiting for generation", none, now⟩
    (st, storeSet store id st)

/-- Model of `startProgress`: a fresh running record at 0%. -/
def startProgress (id : String) (message : Option String) (now : String)
    (store : ProgressStore) : ProgressState × ProgressStore :=
  let st : ProgressState :=
    ⟨id, .running, 0, some (message.getD "Starting generation"), none, now⟩
  (st, storeSet store id st)

/-- Model of `updateProgress`: ensure, clamp the percent, stay running;
the spread copies the base record's error field. -/
def updateProgress (id : String) (progress : ℚ) (message : Option String)
    (now : String) (store : ProgressStore) : ProgressState × ProgressStore :=
  let (base, store1) := ensureProgress id now store
  let st : ProgressState :=
    ⟨id, .running, (clampProgress progress : ℚ),
      match message with | some m => some m | none => base.message,
      base.error, now⟩
  (st, storeSet store1 id st)

/-- Model of `completeProgress`: terminal complete at 100%. -/
def completeProgress (id : String) (message : Option String) (now : String)
    (store : ProgressStore) : ProgressState × ProgressStore :=
  let (base, store1) := ensureProgress id now store
  let st : ProgressState :=
    ⟨id, .complete, 100, some (message.getD "Complete"), base.error, now⟩
  (st, storeSet store1 id st)

/-- Model of `failProgress`: terminal error, preserving the base
record's percent. -/
def failProgress (id : String) (error : String) (now : String)
    (store : ProgressStore) : ProgressState × ProgressStore :=
  let (base, store1) := ensureProgress id now store
  let st : ProgressState :=
    ⟨id, .error, base.progress, some "Generation failed", some error, now⟩
  (st, storeSet store1 id st)

/-- One tracker operation, with its wall-clock reading. -/
inductive TrackerOp where
  | ensure (id now : String)
  | start (id : String) (message : Option String) (now : String)
  | update (id : String) (progress : ℚ) (message : Option String) (now : String)
  | complete (id : String) (message : Option String) (now : String)
  | fail (id error now : String)

/-- Effect of one tracker operation on the store. -/
def applyOp (op : TrackerOp) (store : ProgressStore) : ProgressStore :=
  match op with
  | .ensure id now => (ensureProgress id now store).2
  | .start id message now => (startProgress id message now store).2
  | .update id progress message now => (updateProgress id progress message now store).2
  | .complete id message now => (completeProgress id message now store).2
  | .fail id error now => (failProgress id error now store).2

/-- Terminal statuses of the progress state machine. -/
def isTerminal (status : Option ProgressStatus) : Prop :=
  status = some .complete ∨ status = some .error

instance (status : Option ProgressStatus) : Decidable (isTerminal status) := by
  unfold isTerminal; infer_instance

/-- Whether an operation is an update or start targeting the given id. -/
def opRestartsId (op : TrackerOp) (id : String) : Bool :=
  match op with
  | .start i _ _ => i = id
  | .update i _ _ _ => i = id
  | _ => false

/-- Witness fixture: first grid day 2024-01-01. -/
def wStart : IsoDate := ⟨2024, 1, 1⟩

/-- Witness fixture: 2024-01-01 + 356 days. -/
def wEnd : IsoDate := ⟨2024, 12, 22⟩

/-- Witness fixture: the matching 357-day range. -/
def wRange : DateRange := ⟨wStart, wEnd⟩

/-- Witness fixture: a 7 x 51 grid with a single level-1 cell at the
top-left corner. -/
def wGrid : GridPayload :=
  ⟨7, 51, (1 :: List.replicate 50 0) :: List.replicate 6 (List.replicate 51 0)⟩

/-- Witness fixture: an all-zero 7 x 51 grid. -/
def wGridZero : GridPayload :=
  ⟨7, 51, List.replicate 7 (List.replicate 51 0)⟩

/-- Witness fixture: the default intensity map of the server config. -/
def wIm : CommitIntensityMap :=
  ⟨fun l => if l = 0 then some 0 else if l = 1 then some 1 else
    if l = 2 then some 3 else if l = 3 then some 6 else
    if l = 4 then some 10 else none,
  fun l => if l = 0 then some 0 else if l = 1 then some 2 else
    if l = 2 then some 5 else if l = 3 then some 9 else
    if l = 4 then some 14 else none⟩

/-- Witness fixture: the plan computed for the single-cell grid. -/
def wPlan : List CommitPlanEntry :=
  match buildCommitPlan wGrid wRange wIm (some "test") with
  | .ok p => p.1
  | .error _ => []

/-- Witness fixture: the summary computed for the single-cell grid. -/
def wSummary : CommitPlanSummary :=
  match buildCommitPlan wGrid wRange wIm (some "test") with
  | .ok p => p.2
  | .error _ => ⟨0, 0, wStart, wEnd, wRange⟩

/-- Witness fixture: the first entry of the computed plan (the level-1
cell at the top-left corner). -/
def wEntry : CommitPlanEntry := wPlan.headD ⟨wStart, 0, 0⟩

/-- Witness fixture: intensity map with an inverted range at level 1. -/
def wImBadOne : CommitIntensityMap :=
  ⟨fun l => if l = 0 then some 0 else if l = 1 then some 5 else
    if l = 2 then some 3 else if l = 3 then some 6 else
    if l = 4 then some 10 else none,
  fun l => if l = 0 then some 0 else if l = 1 then some 2 else
    if l = 2 then some 5 else if l = 3 then some 9 else
    if l = 4 then some 14 else none⟩

/-- Witness fixture: intensity map with an inverted range at level 0 only. -/
def wImBadZero : CommitIntensityMap :=
  ⟨fun l => if l = 0 then some 5 else if l = 1 then some 1 else
    if l = 2 then some 3 else if l = 3 then some 6 else
    if l = 4 then some 10 else none,
  fun l => if l = 0 then some 0 else if l = 1 then some 2 else
    if l = 2 then some 5 else if l = 3 then some 9 else
    if l = 4 then some 14 else none⟩

/-- Witness fixture: a mismatched range (end one day after start). -/
def wRangeBad : DateRange := ⟨wStart, ⟨2024, 1, 2⟩⟩

/-- Witness fixture: a trivial summary for synthesis options. -/
def wSummaryTriv : CommitPlanSummary := ⟨0, 0, wStart, wEnd, wRange⟩

/-- Witness fixture: dry-run options. -/
def wOptsDry : GenerateRepoOptions :=
  ⟨"repo", [], wSummaryTriv, "Draw Bot", "drawbot@example.com", none, true, false⟩

/-- Witness fixture: synthesis options with an explicit seed. -/
def wOptsSeeded : GenerateRepoOptions :=
  ⟨"repo", [], wSummaryTriv, "Draw Bot", "drawbot@example.com", some "abc", false, false⟩

/-- The progress field is an integer between 0 and 100. -/
def progressIntegral (st : ProgressState) : Prop :=
  st.progress.den = 1 ∧ 0 ≤ st.progress ∧ st.progress ≤ 100

instance (st : ProgressState) : Decidable (progressIntegral st) := by
  unfold progressIntegral; infer_instance

/-- Every record in the store has an integral in-range progress. -/
def storeInvariant (store : ProgressStore) : Prop :=
  ∀ p ∈ store, progressIntegral p.2

instance (store : ProgressStore) : Decidable (storeInvariant store) := by
  unfold storeInvariant; infer_instance

theorem roundtrip_core (z era doe c dcent q dquad r doy yoe y mp dd m : Int)
    (hera : era = z / 146097) (hdoe : doe = z - era * 146097)
    (hc : c = min (doe / 36524) 3)
    (hdcent : dcent = doe - 36524 * c)
    (hq : q = dcent / 1461) (hdquad : dquad = dcent - 1461 * q)
    (hr : r = min (dquad / 365) 3)
    (hdoy : doy = dquad - 365 * r)
    (hyoe : yoe = r + 4 * q + 100 * c) (hy : y = yoe + era * 400)
    (hmp : mp = (5 * doy + 2) / 153)
    (hdd : dd = doy - (153 * mp + 2) / 5 + 1)
    (hm : m = mp + (if mp < 10 then 3 else -9)) :
    daysFromCivil ⟨y + (if m ≤ 2 then 1 else 0), m, dd⟩ = z - 719468 := by
  have hdoeB : 0 ≤ doe ∧ doe ≤ 146096 := by omega
  have hcB : 0 ≤ c ∧ c ≤ 3 ∧ 0 ≤ dcent ∧ dcent ≤ 36524 := by omega
  have hqB : 0 ≤ q ∧ q ≤ 24 ∧ 0 ≤ dquad ∧ dquad ≤ 1460 := by omega
  have hrB : 0 ≤ r ∧ r ≤ 3 ∧ 0 ≤ doy ∧ doy ≤ 365 := by omega
  have hmpB : 0 ≤ mp ∧ mp ≤ 11 := by omega
  have hyoeB : 0 ≤ yoe ∧ yoe ≤ 399 := by omega
  have hy4 : y / 4 = q + 25 * c + 100 * era := by omega
  have hy100 : y / 100 = c + 4 * era := by omega
  have hy400 : y / 400 = era := by omega
  have hdd2 : (153 * mp + 2) / 5 + dd - 1 = doy := by omega
  simp only [daysFromCivil]
  split_ifs at hm ⊢ <;> subst hm <;> ring_nf <;> omega

/-- The two day-number conversions are mutually inverse on day numbers. -/
theorem daysFromCivil_civilFromDays (n : Int) : daysFromCivil (civilFromDays n) = n := by
  have h := roundtrip_core (n + 719468) _ _ _ _ _ _ _ _ _ _ _ _ _
    rfl rfl rfl rfl rfl rfl rfl rfl rfl rfl rfl rfl rfl
  simpa [civilFromDays] using h

/-- Every mulberry32 draw lies in `[0, 1)`. -/
theorem rngNext_mem_Ico (s : Nat) : 0 ≤ (rngNext s).1 ∧ (rngNext s).1 < 1 := by
  have h32 : (4294967296 : Nat) = 2 ^ 32 := by norm_num
  simp only [rngNext]
  set s' := s + 0x6D2B79F5
  set t0 := s' % 4294967296 with ht0
  set t1 := imul32 (t0 ^^^ (t0 / 32768)) (t0 ||| 1) with ht1
  set t2 := t1 ^^^ ((t1 + imul32 (t1 ^^^ (t1 / 128)) (t1 ||| 61)) % 4294967296) with ht2
  have h1 : t1 < 2 ^ 32 := by
    rw [ht1, imul32, ← h32]; exact Nat.mod_lt _ (by norm_num)
  have h2 : t2 < 2 ^ 32 := by
    rw [ht2]
    exact Nat.xor_lt_two_pow h1 (h32 ▸ Nat.mod_lt _ (by norm_num))
  have h3 : t2 ^^^ (t2 / 16384) < 2 ^ 32 :=
    Nat.xor_lt_two_pow h2 (lt_of_le_of_lt (Nat.div_le_self _ _) h2)
  constructor
  · exact div_nonneg (Nat.cast_nonneg _) (by norm_num)
  · rw [div_lt_one (by norm_num)]
    exact_mod_cast lt_of_lt_of_le h3 (by norm_num)

/-- When the bounds are integers with `mn ≤ mx` and the generator draws in
`[0, 1)`, `randomInt` succeeds and its value lies in `[mn, mx]`. -/
theorem randomInt_int_spec (rng : Nat → ℚ × Nat)
    (hrng : ∀ s, 0 ≤ (rng s).1 ∧ (rng s).1 < 1)
    (mn mx : Int) (s : Nat) (hle : mn ≤ mx) :
    ∃ k, randomInt rng (mn : ℚ) (mx : ℚ) s = .ok (k, (rng s).2) ∧
      mn ≤ k ∧ k ≤ mx := by
  have hceil : Int.ceil ((mn : ℚ)) = mn := Int.ceil_intCast mn
  have hfloor : Int.floor ((mx : ℚ)) = mx := Int.floor_intCast mx
  simp only [randomInt, hceil, hfloor, if_neg (not_lt.mpr hle)]
  refine ⟨_, rfl, ?_, ?_⟩
  · have h0 : (0 : Int) ≤ Int.floor ((rng s).1 * ((mx : ℚ) - mn + 1)) := by
      apply Int.floor_nonneg.mpr
      apply mul_nonneg (hrng s).1
      have : (mn : ℚ) ≤ (mx : ℚ) := by exact_mod_cast hle
      linarith
    omega
  · have hlt : Int.floor ((rng s).1 * ((mx : ℚ) - mn + 1)) < mx - mn + 1 := by
      rw [Int.floor_lt]
      push_cast
      have hpos : (0 : ℚ) < (mx : ℚ) - mn + 1 := by
        have : (mn : ℚ) ≤ (mx : ℚ) := by exact_mod_cast hle
        linarith
      calc (rng s).1 * ((mx : ℚ) - mn + 1) < 1 * ((mx : ℚ) - mn + 1) :=
            mul_lt_mul_of_pos_right (hrng s).2 hpos
        _ = (mx : ℚ) - mn + 1 := one_mul _
    omega

theorem assertValidIsoDate_eq_ok (d : IsoDate) (field : String)
    (h : isValidIsoDate d = true) : assertValidIsoDate d field = .ok () := by
  simp [assertValidIsoDate, h]

theorem addDays_eq_ok (d : IsoDate) (days : Int) (h : isValidIsoDate d = true) :
    addDays d days = .ok (addDaysCore d days) := by
  simp [addDays, assertValidIsoDate_eq_ok d _ h, addDaysCore]

theorem diffInDays_eq_ok (s e : IsoDate) (hs : isValidIsoDate s = true)
    (he : isValidIsoDate e = true) :
    diffInDays s e = .ok (daysFromCivil e - daysFromCivil s) := by
  simp [diffInDays, assertValidIsoDate_eq_ok _ _ hs, assertValidIsoDate_eq_ok _ _ he]

theorem flattenGrid_eq_ok (g : GridPayload) (startDate : IsoDate)
    (hg : validateGrid g = .ok ()) (hs : isValidIsoDate startDate = true) :
    flattenGrid g startDate = .ok (flattenCells g startDate) := by
  simp [flattenGrid, hg, assertValidIsoDate_eq_ok _ _ hs]

theorem daysFromCivil_addDaysCore (d : IsoDate) (days : Int) :
    daysFromCivil (addDaysCore d days) = daysFromCivil d + days := by
  simp [addDaysCore, daysFromCivil_civilFromDays]

/-- Reduced form of `buildCommitPlan` once both dates are known valid:
the remaining control flow is the range check, the day-count check, the
grid flattening and the count assignment. -/
theorem buildCommitPlan_eq_checked (grid : GridPayload) (r : DateRange)
    (im : CommitIntensityMap) (seed : Option String)
    (hs : isValidIsoDate r.startDate = true)
    (he : isValidIsoDate r.endDate = true) :
    buildCommitPlan grid r im seed =
      (if r.endDate ≠ addDaysCore r.startDate 356 then
        .error .endDateMismatch
      else if daysFromCivil r.endDate - daysFromCivil r.startDate ≠ 356 then
        .error .dayCountMismatch
      else
        match flattenGrid grid r.startDate with
        | .error e => .error e
        | .ok flattened =>
          match assignCounts im rngNext flattened
              (createRng (seed.getD
                (renderIsoDate r.startDate ++ ":" ++ renderIsoDate r.endDate))) with
          | .error e => .error e
          | .ok (plan, _) => .ok (plan, summarizePlan plan r)) := by
  rw [buildCommitPlan, assertValidIsoDate_eq_ok _ _ hs, assertValidIsoDate_eq_ok _ _ he,
    addDays_eq_ok _ _ hs, diffInDays_eq_ok _ _ hs he]
  norm_num

/-- Inversion of a successful `buildCommitPlan` run: both dates validated,
the range matched, the grid validated, and the plan came out of
`assignCounts` on the flattened cells with the derived seed. -/
theorem buildCommitPlan_ok_inv (grid : GridPayload) (r : DateRange)
    (im : CommitIntensityMap) (seed : Option String)
    (plan : List CommitPlanEntry) (summary : CommitPlanSummary)
    (h : buildCommitPlan grid r im seed = .ok (plan, summary)) :
    isValidIsoDate r.startDate = true ∧ isValidIsoDate r.endDate = true ∧
    r.endDate = expectedEndDate r.startDate ∧ validateGrid grid = .ok () ∧
    (∃ s', assignCounts im rngNext (flattenCells grid r.startDate)
        (createRng (seed.getD
          (renderIsoDate r.startDate ++ ":" ++ renderIsoDate r.endDate))) =
        .ok (plan, s')) ∧
    summary = summarizePlan plan r := by
  by_cases hs : isValidIsoDate r.startDate
  case neg => simp [buildCommitPlan, assertValidIsoDate, hs] at h
  by_cases he : isValidIsoDate r.endDate
  case neg => simp [buildCommitPlan, assertValidIsoDate, hs, he] at h
  rw [buildCommitPlan_eq_checked grid r im seed hs he] at h
  by_cases hend : r.endDate = expectedEndDate r.startDate
  case neg =>
    rw [if_pos (show r.endDate ≠ addDaysCore r.startDate 356 by
      simpa [expectedEndDate] using hend)] at h
    cases h
  rw [if_neg (show ¬r.endDate ≠ addDaysCore r.startDate 356 by
    simpa [expectedEndDate] using hend)] at h
  have hdiff : daysFromCivil r.endDate - daysFromCivil r.startDate = 356 := by
    rw [hend, expectedEndDate, daysFromCivil_addDaysCore]; ring
  rw [if_neg (by omega)] at h
  cases hval : validateGrid grid with
  | error e => simp [flattenGrid, hval] at h
  | ok u =>
    cases u
    have hval2 : validateGrid grid = .ok () := hval
    rw [flattenGrid_eq_ok _ _ hval2 hs] at h
    dsimp only at h
    refine ⟨hs, he, hend, rfl, ?_⟩
    cases hassign : assignCounts im rngNext (flattenCells grid r.startDate)
        (createRng (seed.getD
          (renderIsoDate r.startDate ++ ":" ++ renderIsoDate r.endDate))) with
    | error e => rw [hassign] at h; cases h
    | ok pr =>
      rw [hassign] at h
      dsimp only at h
      cases h
      exact ⟨⟨pr.2, rfl⟩, rfl⟩

/-- C1: buildCommitPlan is pure and deterministic: for every valid 7x51
grid, matching date range, intensity map, and (possibly absent) seed, two
invocations with identical arguments return identical plans and
summaries.  In this embedding the generator state is created inside the
call and threaded explicitly, so the function is pure by construction and
no mutable state survives between calls. -/
theorem buildCommitPlan_deterministic (grid : GridPayload) (dateRange : DateRange)
    (im : CommitIntensityMap) (randomSeed : Option String) :
    buildCommitPlan grid dateRange im randomSeed =
      buildCommitPlan grid dateRange im randomSeed := rfl

/-- C4: buildCommitPlan fails with the date-range validation error and
returns no plan whenever endDate is not exactly startDate + 356 days, and
produces a plan only when the range matches exactly. -/
theorem buildCommitPlan_dateRange (grid : GridPayload) (r : DateRange)
    (im : CommitIntensityMap) (seed : Option String)
    (hs : isValidIsoDate r.startDate = true)
    (he : isValidIsoDate r.endDate = true) :
    (r.endDate ≠ addDaysCore r.startDate 356 →
      buildCommitPlan grid r im seed = .error .endDateMismatch) ∧
    (∀ result, buildCommitPlan grid r im seed = .ok result →
      r.endDate = addDaysCore r.startDate 356) := by
  constructor
  · intro hne
    rw [buildCommitPlan_eq_checked grid r im seed hs he, if_pos hne]
  · intro result hok
    have := buildCommitPlan_ok_inv grid r im seed result.1 result.2 (by
      rw [hok])
    simpa [expectedEndDate] using this.2.2.1

theorem getCommitCountForLevel_ok_inv (level : Int) (im : CommitIntensityMap)
    (s : Nat) (k : Int) (s' : Nat)
    (h : getCommitCountForLevel level im rngNext s = .ok (k, s')) :
    (level = 0 → k = 0) ∧
    (level ≠ 0 → ∃ mn mx, im.minByLevel level = some mn ∧
      im.maxByLevel level = some mx ∧ mn ≤ k ∧ k ≤ mx) := by
  unfold getCommitCountForLevel at h
  cases hmn : im.minByLevel level with
  | none => simp [hmn] at h
  | some mn =>
    cases hmx : im.maxByLevel level with
    | none => simp [hmn, hmx] at h
    | some mx =>
      rw [hmn, hmx] at h
      dsimp only at h
      by_cases hl : level = 0
      · rw [if_pos hl] at h
        refine ⟨fun _ => ?_, fun hne => absurd hl hne⟩
        injection h with h1
        injection h1 with ha hb
        exact ha.symm
      · rw [if_neg hl] at h
        by_cases hgt : mn > mx
        · rw [if_pos hgt] at h; cases h
        · rw [if_neg hgt] at h
          obtain ⟨k', hk', h1, h2⟩ :=
            randomInt_int_spec rngNext rngNext_mem_Ico mn mx s (not_lt.mp hgt)
          rw [hk'] at h
          have hkk : k' = k ∧ (rngNext s).2 = s' := by
            constructor <;> injection h with h3 <;> injection h3
          exact ⟨fun h0 => absurd h0 hl,
            fun _ => ⟨mn, mx, rfl, rfl, hkk.1 ▸ h1, hkk.1 ▸ h2⟩⟩

theorem assignCounts_mem_spec (im : CommitIntensityMap) (cells : List FlatCell)
    (s : Nat) (plan : List CommitPlanEntry) (s' : Nat)
    (h : assignCounts im rngNext cells s = .ok (plan, s')) :
    ∀ e ∈ plan, (e.level = 0 → e.commitCount = 0) ∧
      (e.level ≠ 0 → ∃ mn mx, im.minByLevel e.level = some mn ∧
        im.maxByLevel e.level = some mx ∧ mn ≤ e.commitCount ∧
        e.commitCount ≤ mx) := by
  induction cells generalizing s plan s' with
  | nil =>
    rw [assignCounts] at h
    have hp : plan = [] := by
      injection h with h1
      injection h1 with h2
      exact h2.symm
    subst hp
    intro e he
    cases he
  | cons cell cells ih =>
    rw [assignCounts] at h
    cases hg : getCommitCountForLevel cell.level im rngNext s with
    | error e => rw [hg] at h; cases h
    | ok p =>
      rw [hg] at h
      dsimp only at h
      cases hrest : assignCounts im rngNext cells p.2 with
      | error e => rw [hrest] at h; cases h
      | ok pr =>
        rw [hrest] at h
        dsimp only at h
        have hp : plan = ⟨cell.date, cell.level, p.1⟩ :: pr.1 := by
          injection h with h1
          injection h1 with h2
          exact h2.symm
        subst hp
        intro e he
        rcases List.mem_cons.mp he with he | he
        · subst he
          exact getCommitCountForLevel_ok_inv cell.level im s p.1 p.2 (by
            rw [hg])
        · exact ih p.2 pr.1 pr.2 (by rw [hrest]) e he

/-- C2: for every plan returned by a successful buildCommitPlan call, each
entry whose level is nonzero has commitCount in the inclusive range given
by the intensity map at that level, and every entry whose level is 0 has
commitCount 0. -/
theorem buildCommitPlan_count_bounds (grid : GridPayload) (r : DateRange)
    (im : CommitIntensityMap) (seed : Option String)
    (plan : List CommitPlanEntry) (summary : CommitPlanSummary)
    (h : buildCommitPlan grid r im seed = .ok (plan, summary)) :
    ∀ e ∈ plan, (e.level = 0 → e.commitCount = 0) ∧
      (e.level ≠ 0 → ∃ mn mx, im.minByLevel e.level = some mn ∧
        im.maxByLevel e.level = some mx ∧ mn ≤ e.commitCount ∧
        e.commitCount ≤ mx) := by
  obtain ⟨_, _, _, _, ⟨s', hassign⟩, _⟩ :=
    buildCommitPlan_ok_inv grid r im seed plan summary h
  exact assignCounts_mem_spec im _ _ plan s' hassign

theorem headD_mem_self (l : List CommitPlanEntry) (d : CommitPlanEntry)
    (h : l ≠ []) : l.headD d ∈ l := by
  cases l with
  | nil => exact absurd rfl h
  | cons x xs => exact List.mem_cons_self _ _

set_option maxRecDepth 40000 in
theorem buildCommitPlan_count_bounds_witness :
    (wEntry.level = 0 → wEntry.commitCount = 0) ∧
    (wEntry.level ≠ 0 → ∃ mn mx, wIm.minByLevel wEntry.level = some mn ∧
      wIm.maxByLevel wEntry.level = some mx ∧ mn ≤ wEntry.commitCount ∧
      wEntry.commitCount ≤ mx) :=
  buildCommitPlan_count_bounds wGrid wRange wIm (some "test") wPlan wSummary
    (by rfl) wEntry
    (headD_mem_self wPlan ⟨wStart, 0, 0⟩ (by
      have h : wPlan.length = 357 := by rfl
      intro hnil
      rw [hnil] at h
      cases h))

theorem validateCells_ok_mem (ri ci : Nat) (row : List Int)
    (h : validateCells ri ci row = .ok ()) :
    ∀ l ∈ row, l ∈ ([0, 1, 2, 3, 4] : List Int) := by
  induction row generalizing ci with
  | nil => intro l hl; cases hl
  | cons x xs ih =>
    rw [validateCells] at h
    by_cases hx : x ∈ ([0, 1, 2, 3, 4] : List Int)
    · rw [if_pos hx] at h
      intro l hl
      rcases List.mem_cons.mp hl with hl | hl
      · subst hl; exact hx
      · exact ih (ci + 1) h l hl
    · rw [if_neg hx] at h; cases h

theorem validateRows_ok_facts (cols ri : Nat) (rows : List (List Int))
    (h : validateRows cols ri rows = .ok ()) :
    ∀ row ∈ rows, row.length = cols ∧ ∀ l ∈ row, l ∈ ([0, 1, 2, 3, 4] : List Int) := by
  induction rows generalizing ri with
  | nil => intro row hr; cases hr
  | cons x xs ih =>
    rw [validateRows] at h
    by_cases hlen : x.length ≠ cols
    · rw [if_pos hlen] at h; cases h
    · rw [if_neg hlen] at h
      cases hc : validateCells ri 0 x with
      | error e => rw [hc] at h; cases h
      | ok u =>
        cases u
        rw [hc] at h
        dsimp only at h
        intro row hr
        rcases List.mem_cons.mp hr with hr | hr
        · subst hr
          exact ⟨not_not.mp hlen, validateCells_ok_mem ri 0 row hc⟩
        · exact ih (ri + 1) h row hr

theorem validateGrid_ok_facts (g : GridPayload) (h : validateGrid g = .ok ()) :
    g.rows = 7 ∧ g.cols = 51 ∧ g.levels.length = 7 ∧
    ∀ row ∈ g.levels, row.length = 51 ∧
      ∀ l ∈ row, l ∈ ([0, 1, 2, 3, 4] : List Int) := by
  rw [validateGrid] at h
  by_cases h1 : g.rows ≠ 7 ∨ g.cols ≠ 51
  · rw [if_pos h1] at h; cases h
  · rw [if_neg h1] at h
    push_neg at h1
    by_cases h2 : g.levels.length ≠ g.rows
    · rw [if_pos h2] at h; cases h
    · rw [if_neg h2] at h
      have hfacts := validateRows_ok_facts g.cols 0 g.levels h
      refine ⟨h1.1, h1.2, by omega, fun row hr => ?_⟩
      obtain ⟨hlen, hmem⟩ := hfacts row hr
      exact ⟨by omega, hmem⟩

theorem flattenCells_spec_level (g : GridPayload) (startDate : IsoDate)
    (hg : validateGrid g = .ok ()) :
    ∀ cell ∈ flattenCells g startDate, cell.level ∈ ([0, 1, 2, 3, 4] : List Int) := by
  obtain ⟨hr7, hc51, hlen, hrows⟩ := validateGrid_ok_facts g hg
  intro cell hc
  rw [flattenCells, List.mem_flatMap] at hc
  obtain ⟨c, hcr, hcm⟩ := hc
  rw [List.mem_map] at hcm
  obtain ⟨r, hrr, hcell⟩ := hcm
  have hrlt : r < g.levels.length := by
    rw [hlen]; rw [List.mem_range] at hrr; omega
  have hrow : g.levels.getD r [] = g.levels.get ⟨r, hrlt⟩ := by
    rw [List.getD_eq_getElem _ _ hrlt]
    simp
  have hrowmem : g.levels.get ⟨r, hrlt⟩ ∈ g.levels := List.get_mem _ _ _
  obtain ⟨hrowlen, hrowelems⟩ := hrows _ hrowmem
  have hclt : c < (g.levels.get ⟨r, hrlt⟩).length := by
    rw [hrowlen]; rw [List.mem_range] at hcr; omega
  have hlevel : (g.levels.getD r []).getD c 0 =
      (g.levels.get ⟨r, hrlt⟩).get ⟨c, hclt⟩ := by
    rw [hrow, List.getD_eq_getElem _ _ hclt]
    simp
  subst hcell
  dsimp only
  rw [hlevel]
  exact hrowelems _ (List.get_mem _ _ _)

theorem getCommitCountForLevel_error_intensity (level : Int)
    (im : CommitIntensityMap) (s : Nat) (L : Int)
    (h : getCommitCountForLevel level im rngNext s = .error (.invalidIntensityRange L)) :
    level = L ∧ level ≠ 0 ∧ ∃ mn mx, im.minByLevel level = some mn ∧
      im.maxByLevel level = some mx ∧ mx < mn := by
  unfold getCommitCountForLevel at h
  cases hmn : im.minByLevel level with
  | none => rw [hmn] at h; dsimp only at h; injection h with h1; cases h1
  | some mn =>
    cases hmx : im.maxByLevel level with
    | none => rw [hmn, hmx] at h; dsimp only at h; injection h with h1; cases h1
    | some mx =>
      rw [hmn, hmx] at h
      dsimp only at h
      by_cases hl : level = 0
      · rw [if_pos hl] at h; cases h
      · rw [if_neg hl] at h
        by_cases hgt : mn > mx
        · rw [if_pos hgt] at h
          injection h with h1
          injection h1 with h2
          exact ⟨h2, hl, mn, mx, rfl, rfl, hgt⟩
        · rw [if_neg hgt] at h
          rw [randomInt] at h
          by_cases hcc : Int.floor ((mx : ℚ)) < Int.ceil ((mn : ℚ))
          · rw [if_pos hcc] at h
            injection h with h1
            cases h1
          · rw [if_neg hcc] at h
            cases h

theorem assignCounts_error_intensity (im : CommitIntensityMap)
    (cells : List FlatCell) (s : Nat) (L : Int)
    (h : assignCounts im rngNext cells s = .error (.invalidIntensityRange L)) :
    ∃ cell ∈ cells, cell.level = L ∧ cell.level ≠ 0 ∧
      ∃ mn mx, im.minByLevel L = some mn ∧ im.maxByLevel L = some mx ∧
        mx < mn := by
  induction cells generalizing s with
  | nil => rw [assignCounts] at h; cases h
  | cons cell cells ih =>
    rw [assignCounts] at h
    cases hg : getCommitCountForLevel cell.level im rngNext s with
    | error e =>
      rw [hg] at h
      dsimp only at h
      injection h with h1
      subst h1
      obtain ⟨hL, hne, mn, mx, hmn, hmx, hlt⟩ :=
        getCommitCountForLevel_error_intensity cell.level im s L hg
      exact ⟨cell, List.mem_cons_self _ _, hL, hne, mn, mx, hL ▸ hmn, hL ▸ hmx, hlt⟩
    | ok p =>
      rw [hg] at h
      dsimp only at h
      cases hrest : assignCounts im rngNext cells p.2 with
      | error e =>
        rw [hrest] at h
        dsimp only at h
        injection h with h1
        subst h1
        obtain ⟨c, hc, rest⟩ := ih p.2 hrest
        exact ⟨c, List.mem_cons_of_mem _ hc, rest⟩
      | ok pr => rw [hrest] at h; cases h

theorem validateCells_error_shape (ri ci : Nat) (row : List Int) (e : GenError)
    (h : validateCells ri ci row = .error e) :
    ∃ rr cc, e = .invalidCellLevel rr cc := by
  induction row generalizing ci with
  | nil => cases h
  | cons x xs ih =>
    rw [validateCells] at h
    by_cases hx : x ∈ ([0, 1, 2, 3, 4] : List Int)
    · rw [if_pos hx] at h; exact ih (ci + 1) h
    · rw [if_neg hx] at h
      injection h with h1
      exact ⟨ri, ci, h1.symm⟩

theorem validateRows_error_shape (cols ri : Nat) (rows : List (List Int))
    (e : GenError) (h : validateRows cols ri rows = .error e) :
    (∃ i, e = .gridRowLengthMismatch i) ∨ ∃ rr cc, e = .invalidCellLevel rr cc := by
  induction rows generalizing ri with
  | nil => cases h
  | cons x xs ih =>
    rw [validateRows] at h
    by_cases hlen : x.length ≠ cols
    · rw [if_pos hlen] at h
      injection h with h1
      exact Or.inl ⟨ri, h1.symm⟩
    · rw [if_neg hlen] at h
      cases hc : validateCells ri 0 x with
      | error e2 =>
        rw [hc] at h
        dsimp only at h
        injection h with h1
        subst h1
        exact Or.inr (validateCells_error_shape ri 0 x _ hc)
      | ok u =>
        cases u
        rw [hc] at h
        dsimp only at h
        exact ih (ri + 1) h

theorem validateGrid_error_shape (g : GridPayload) (e : GenError)
    (h : validateGrid g = .error e) :
    (∃ a b, e = .invalidGridShape a b) ∨ e = .gridRowCountMismatch ∨
    (∃ i, e = .gridRowLengthMismatch i) ∨ ∃ rr cc, e = .invalidCellLevel rr cc := by
  rw [validateGrid] at h
  by_cases h1 : g.rows ≠ 7 ∨ g.cols ≠ 51
  · rw [if_pos h1] at h
    injection h with h2
    exact Or.inl ⟨g.rows, g.cols, h2.symm⟩
  · rw [if_neg h1] at h
    by_cases h2 : g.levels.length ≠ g.rows
    · rw [if_pos h2] at h
      injection h with h3
      exact Or.inr (Or.inl h3.symm)
    · rw [if_neg h2] at h
      rcases validateRows_error_shape g.cols 0 g.levels e h with h3 | h3
      · exact Or.inr (Or.inr (Or.inl h3))
      · exact Or.inr (Or.inr (Or.inr h3))

theorem buildCommitPlan_intensity_error_inv (grid : GridPayload) (r : DateRange)
    (im : CommitIntensityMap) (seed : Option String) (L : Int)
    (h : buildCommitPlan grid r im seed = .error (.invalidIntensityRange L)) :
    ∃ s0, assignCounts im rngNext (flattenCells grid r.startDate) s0 =
      .error (.invalidIntensityRange L) := by
  by_cases hs : isValidIsoDate r.startDate
  case neg => simp [buildCommitPlan, assertValidIsoDate, hs] at h
  by_cases he : isValidIsoDate r.endDate
  case neg => simp [buildCommitPlan, assertValidIsoDate, hs, he] at h
  rw [buildCommitPlan_eq_checked grid r im seed hs he] at h
  by_cases hend : r.endDate = addDaysCore r.startDate 356
  case neg =>
    rw [if_pos hend] at h
    injection h with h1
    cases h1
  rw [if_neg (not_not_intro hend)] at h
  have hdiff : daysFromCivil r.endDate - daysFromCivil r.startDate = 356 := by
    rw [hend, daysFromCivil_addDaysCore]; ring
  rw [if_neg (by omega)] at h
  cases hval : validateGrid grid with
  | error e =>
    simp only [flattenGrid, hval] at h
    injection h with h1
    rcases validateGrid_error_shape grid e hval with ⟨a, b, h2⟩ | h2 | ⟨i, h2⟩ | ⟨rr, cc, h2⟩ <;>
      rw [h2] at h1 <;> cases h1
  | ok u =>
    cases u
    have hval2 : validateGrid grid = .ok () := hval
    rw [flattenGrid_eq_ok _ _ hval2 hs] at h
    dsimp only at h
    cases hassign : assignCounts im rngNext (flattenCells grid r.startDate)
        (createRng (seed.getD
          (renderIsoDate r.startDate ++ ":" ++ renderIsoDate r.endDate))) with
    | error e =>
      rw [hassign] at h
      dsimp only at h
      injection h with h1
      subst h1
      exact ⟨_, hassign⟩
    | ok pr => rw [hassign] at h; dsimp only at h; cases h

theorem getCommitCountForLevel_zero (im : CommitIntensityMap) (s : Nat)
    (mn mx : Int) (hmn : im.minByLevel 0 = some mn)
    (hmx : im.maxByLevel 0 = some mx) :
    getCommitCountForLevel 0 im rngNext s = .ok (0, s) := by
  unfold getCommitCountForLevel
  rw [hmn, hmx]
  dsimp only
  rw [if_pos rfl]

theorem assignCounts_ok_of (im : CommitIntensityMap) (cells : List FlatCell)
    (s : Nat)
    (hdef : ∀ cell ∈ cells, ∃ mn mx, im.minByLevel cell.level = some mn ∧
      im.maxByLevel cell.level = some mx ∧ (cell.level ≠ 0 → mn ≤ mx)) :
    ∃ plan s', assignCounts im rngNext cells s = .ok (plan, s') ∧
      ∀ e ∈ plan, e.level = 0 → e.commitCount = 0 := by
  induction cells generalizing s with
  | nil => exact ⟨[], s, rfl, by intro e he; cases he⟩
  | cons cell cells ih =>
    obtain ⟨mn, mx, hmn, hmx, hle⟩ := hdef cell (List.mem_cons_self _ _)
    have hdef2 := fun c hc => hdef c (List.mem_cons_of_mem _ hc)
    by_cases hl : cell.level = 0
    · have hg : getCommitCountForLevel cell.level im rngNext s = .ok (0, s) := by
        rw [hl]
        exact getCommitCountForLevel_zero im s mn mx (hl ▸ hmn) (hl ▸ hmx)
      obtain ⟨plan, s', hrest, hplan⟩ := ih s hdef2
      refine ⟨⟨cell.date, cell.level, 0⟩ :: plan, s', ?_, ?_⟩
      · rw [assignCounts, hg]
        dsimp only
        rw [hrest]
      · intro e he
        rcases List.mem_cons.mp he with he | he
        · subst he; intro _; rfl
        · exact hplan e he
    · have hmnx := hle hl
      obtain ⟨k, hk, h1, h2⟩ := randomInt_int_spec rngNext rngNext_mem_Ico mn mx s hmnx
      have hg : getCommitCountForLevel cell.level im rngNext s =
          .ok (k, (rngNext s).2) := by
        unfold getCommitCountForLevel
        rw [hmn, hmx]
        dsimp only
        rw [if_neg hl, if_neg (not_lt.mpr hmnx)]
        exact hk
      obtain ⟨plan, s', hrest, hplan⟩ := ih ((rngNext s).2) hdef2
      refine ⟨⟨cell.date, cell.level, k⟩ :: plan, s', ?_, ?_⟩
      · rw [assignCounts, hg]
        dsimp only
        rw [hrest]
      · intro e he
        rcases List.mem_cons.mp he with he | he
        · subst he; intro h0; exact absurd h0 hl
        · exact hplan e he

/-- C10: the intensity-range check applies only to nonzero levels actually
drawn.  Part one: the intensity-range error implies a flattened cell with
that nonzero level whose bounds are inverted.  Part two: with a valid
matching input and bounds defined for all levels, buildCommitPlan succeeds
whenever every nonzero level has an ordered range, regardless of level
0's bounds (in particular when level 0's min exceeds its max), and every
level-0 entry still receives commitCount 0. -/
theorem buildCommitPlan_intensity_scope (grid : GridPayload) (r : DateRange)
    (im : CommitIntensityMap) (seed : Option String) :
    (∀ L, buildCommitPlan grid r im seed = .error (.invalidIntensityRange L) →
      ∃ cell ∈ flattenCells grid r.startDate, cell.level = L ∧ cell.level ≠ 0 ∧
        ∃ mn mx, im.minByLevel L = some mn ∧ im.maxByLevel L = some mx ∧
          mx < mn) ∧
    (isValidIsoDate r.startDate = true → isValidIsoDate r.endDate = true →
      r.endDate = addDaysCore r.startDate 356 → validateGrid grid = .ok () →
      (∀ l : Int, 0 ≤ l → l ≤ 4 →
        (im.minByLevel l).isSome = true ∧ (im.maxByLevel l).isSome = true) →
      (∀ l : Int, 1 ≤ l → l ≤ 4 → ∀ mn mx, im.minByLevel l = some mn →
        im.maxByLevel l = some mx → mn ≤ mx) →
      ∃ plan summary, buildCommitPlan grid r im seed = .ok (plan, summary) ∧
        ∀ e ∈ plan, e.level = 0 → e.commitCount = 0) := by
  constructor
  · intro L h
    obtain ⟨s0, hassign⟩ := buildCommitPlan_intensity_error_inv grid r im seed L h
    exact assignCounts_error_intensity im _ s0 L hassign
  · intro hs he hend hval hdefined hranges
    have hcells := flattenCells_spec_level grid r.startDate hval
    have hdef : ∀ cell ∈ flattenCells grid r.startDate,
        ∃ mn mx, im.minByLevel cell.level = some mn ∧
          im.maxByLevel cell.level = some mx ∧ (cell.level ≠ 0 → mn ≤ mx) := by
      intro cell hc
      have hmem := hcells cell hc
      have h04 : 0 ≤ cell.level ∧ cell.level ≤ 4 := by
        have hflat : cell.level = 0 ∨ cell.level = 1 ∨ cell.level = 2 ∨
            cell.level = 3 ∨ cell.level = 4 := by simpa using hmem
        omega
      obtain ⟨hminS, hmaxS⟩ := hdefined cell.level h04.1 h04.2
      obtain ⟨mn, hmn⟩ := Option.isSome_iff_exists.mp hminS
      obtain ⟨mx, hmx⟩ := Option.isSome_iff_exists.mp hmaxS
      refine ⟨mn, mx, hmn, hmx, fun hne => ?_⟩
      exact hranges cell.level (by omega) h04.2 mn mx hmn hmx
    obtain ⟨plan, s', hassign, hplan⟩ :=
      assignCounts_ok_of im (flattenCells grid r.startDate)
        (createRng (seed.getD
          (renderIsoDate r.startDate ++ ":" ++ renderIsoDate r.endDate))) hdef
    refine ⟨plan, summarizePlan plan r, ?_, hplan⟩
    have hdiff : daysFromCivil r.endDate - daysFromCivil r.startDate = 356 := by
      rw [hend, daysFromCivil_addDaysCore]; ring
    rw [buildCommitPlan_eq_checked grid r im seed hs he,
      if_neg (not_not_intro hend), if_neg (by omega),
      flattenGrid_eq_ok _ _ hval hs]
    dsimp only
    rw [hassign]

set_option maxRecDepth 40000 in
theorem buildCommitPlan_intensity_scope_witness :
    (∃ cell ∈ flattenCells wGrid wStart, cell.level = 1 ∧ cell.level ≠ 0 ∧
      ∃ mn mx, wImBadOne.minByLevel 1 = some mn ∧
        wImBadOne.maxByLevel 1 = some mx ∧ mx < mn) ∧
    (∃ plan summary,
      buildCommitPlan wGridZero wRange wImBadZero none = .ok (plan, summary) ∧
      ∀ e ∈ plan, e.level = 0 → e.commitCount = 0) :=
  ⟨(buildCommitPlan_intensity_scope wGrid wRange wImBadOne none).1 1 (by rfl),
   (buildCommitPlan_intensity_scope wGridZero wRange wImBadZero none).2
     (by rfl) (by rfl) (by decide) (by rfl)
     (fun l h1 h2 => by interval_cases l <;> simp [wImBadZero])
     (fun l h1 h2 mn mx hmn hmx => by
       interval_cases l <;> simp [wImBadZero] at hmn hmx <;> omega)⟩

theorem buildCommitPlan_dateRange_witness :
    (wRangeBad.endDate ≠ addDaysCore wRangeBad.startDate 356 →
      buildCommitPlan wGridZero wRangeBad wIm none = .error .endDateMismatch) ∧
    (∀ result, buildCommitPlan wGridZero wRangeBad wIm none = .ok result →
      wRangeBad.endDate = addDaysCore wRangeBad.startDate 356) :=
  buildCommitPlan_dateRange wGridZero wRangeBad wIm none (by rfl) (by rfl)

theorem range_flatMap_length (f : Nat → Nat → FlatCell) (C : Nat) :
    ((List.range C).flatMap fun c => (List.range 7).map (f c)).length = C * 7 := by
  induction C with
  | zero => rfl
  | succ n ih =>
    rw [List.range_succ, List.flatMap_append, List.length_append, ih]
    simp [Nat.succ_mul]

theorem range_flatMap_getElem (f : Nat → Nat → FlatCell) (C i : Nat)
    (h : i < C * 7) :
    ((List.range C).flatMap fun c => (List.range 7).map (f c))[i]? =
      some (f (i / 7) (i % 7)) := by
  induction C with
  | zero => omega
  | succ n ih =>
    rw [List.range_succ, List.flatMap_append]
    by_cases hi : i < n * 7
    · rw [List.getElem?_append_left (by rw [range_flatMap_length]; exact hi)]
      exact ih hi
    · have hge : n * 7 ≤ i := le_of_not_lt hi
      rw [List.getElem?_append_right (by rw [range_flatMap_length]; exact hge)]
      rw [range_flatMap_length]
      have h7 : i - n * 7 < 7 := by omega
      simp only [List.flatMap_cons, List.flatMap_nil, List.append_nil]
      rw [List.getElem?_map, List.getElem?_range h7]
      have hdiv : i / 7 = n := by omega
      have hmod : i % 7 = i - n * 7 := by omega
      rw [hdiv, hmod]
      rfl

theorem flattenCells_cell_at (g : GridPayload) (startDate : IsoDate)
    (hr7 : g.rows = 7) (i : Nat) (h : i < g.cols * 7) :
    (flattenCells g startDate)[i]? =
      some ⟨dateForCellCore startDate (i % 7) (i / 7),
        (g.levels.getD (i % 7) []).getD (i / 7) 0⟩ := by
  unfold flattenCells
  rw [hr7]
  exact range_flatMap_getElem
    (fun c r => ⟨dateForCellCore startDate r c, (g.levels.getD r []).getD c 0⟩)
    g.cols i h

/-- C5: for every grid that passes validation and every valid start date,
flattenGrid returns exactly 357 (date, level) pairs, ordered by ascending
column then row (the cell for column c and row r sits at index c*7+r and
carries the date startDate + (c*7+r) days), and the dates are strictly
increasing. -/
theorem flattenGrid_result_spec (g : GridPayload) (startDate : IsoDate)
    (hg : validateGrid g = .ok ()) (hs : isValidIsoDate startDate = true) :
    ∃ cells, flattenGrid g startDate = .ok cells ∧ cells.length = 357 ∧
      (∀ colIndex rowIndex : Nat, colIndex < 51 → rowIndex < 7 →
        ∃ cell, cells[colIndex * 7 + rowIndex]? = some cell ∧
          cell.date = dateForCellCore startDate rowIndex colIndex) ∧
      List.Pairwise (fun a b => daysFromCivil a.date < daysFromCivil b.date)
        cells := by
  obtain ⟨hr7, hc51, _, _⟩ := validateGrid_ok_facts g hg
  have hlen : (flattenCells g startDate).length = 357 := by
    unfold flattenCells
    rw [hr7, hc51, range_flatMap_length
      (fun c r => ⟨dateForCellCore startDate r c, (g.levels.getD r []).getD c 0⟩) 51]
  have hdate : ∀ i : Nat, i < 357 → ∀ cell : FlatCell,
      (flattenCells g startDate)[i]? = some cell →
      daysFromCivil cell.date = daysFromCivil startDate + i := by
    intro i hi cell hcell
    have hi357 : i < g.cols * 7 := by rw [hc51]; omega
    have hq := flattenCells_cell_at g startDate hr7 i hi357
    rw [hcell] at hq
    injection hq with hq
    rw [hq]
    dsimp only
    rw [dateForCellCore, addDaysCore, daysFromCivil_civilFromDays]
    push_cast
    omega
  refine ⟨flattenCells g startDate, flattenGrid_eq_ok g startDate hg hs, hlen,
    ?_, ?_⟩
  · intro c r hc hr
    have hi357 : c * 7 + r < g.cols * 7 := by rw [hc51]; omega
    have hq := flattenCells_cell_at g startDate hr7 (c * 7 + r) hi357
    have hdiv : (c * 7 + r) / 7 = c := by omega
    have hmod : (c * 7 + r) % 7 = r := by omega
    rw [hdiv, hmod] at hq
    exact ⟨_, hq, rfl⟩
  · rw [List.pairwise_iff_getElem]
    intro i j hi hj hij
    have h1 := hdate i (by omega) _ (List.getElem?_eq_getElem hi)
    have h2 := hdate j (by omega) _ (List.getElem?_eq_getElem hj)
    omega

set_option maxRecDepth 40000 in
theorem flattenGrid_result_spec_witness :
    ∃ cells, flattenGrid wGrid wStart = .ok cells ∧ cells.length = 357 ∧
      (∀ colIndex rowIndex : Nat, colIndex < 51 → rowIndex < 7 →
        ∃ cell, cells[colIndex * 7 + rowIndex]? = some cell ∧
          cell.date = dateForCellCore wStart rowIndex colIndex) ∧
      List.Pairwise (fun a b => daysFromCivil a.date < daysFromCivil b.date)
        cells :=
  flattenGrid_result_spec wGrid wStart (by rfl) (by rfl)

theorem randomInt_ok (rng : Nat → ℚ × Nat)
    (hrng : ∀ s, 0 ≤ (rng s).1 ∧ (rng s).1 < 1)
    (mn mx : ℚ) (s : Nat) (hle : Int.ceil mn ≤ Int.floor mx) :
    ∃ k, randomInt rng mn mx s = .ok (k, (rng s).2) ∧
      Int.ceil mn ≤ k ∧ k ≤ Int.floor mx := by
  simp only [randomInt, if_neg (not_lt.mpr hle)]
  refine ⟨_, rfl, ?_, ?_⟩
  · have h0 : (0 : Int) ≤ Int.floor ((rng s).1 * ((Int.floor mx : ℚ) - Int.ceil mn + 1)) := by
      apply Int.floor_nonneg.mpr
      apply mul_nonneg (hrng s).1
      have : ((Int.ceil mn : Int) : ℚ) ≤ ((Int.floor mx : Int) : ℚ) := by
        exact_mod_cast hle
      linarith
    omega
  · have hlt : Int.floor ((rng s).1 * ((Int.floor mx : ℚ) - Int.ceil mn + 1)) <
        Int.floor mx - Int.ceil mn + 1 := by
      rw [Int.floor_lt]
      push_cast
      have hpos : (0 : ℚ) < (Int.floor mx : ℚ) - Int.ceil mn + 1 := by
        have : ((Int.ceil mn : Int) : ℚ) ≤ ((Int.floor mx : Int) : ℚ) := by
          exact_mod_cast hle
        linarith
      calc (rng s).1 * ((Int.floor mx : ℚ) - Int.ceil mn + 1) <
            1 * ((Int.floor mx : ℚ) - Int.ceil mn + 1) :=
            mul_lt_mul_of_pos_right (hrng s).2 hpos
        _ = (Int.floor mx : ℚ) - Int.ceil mn + 1 := one_mul _
    omega

theorem buildSlotTimes_spec (rng : Nat → ℚ × Nat)
    (hrng : ∀ s, 0 ≤ (rng s).1 ∧ (rng s).1 < 1)
    (start R cnt : Int) (hR : 0 < R) (hcnt : 0 < cnt) :
    ∀ (fuel : Nat) (i : Int) (s : Nat), 0 ≤ i → i + fuel = cnt →
    ∃ ts s2, buildSlotTimes rng start R cnt fuel i s = .ok (ts, s2) ∧
      ts.length = fuel ∧
      (∀ t ∈ ts, start + i * R / cnt ≤ t ∧ t ≤ start + R - 1) ∧
      List.Chain' (· ≤ ·) ts := by
  intro fuel
  induction fuel with
  | zero =>
    intro i s hi hsum
    exact ⟨[], s, rfl, rfl, ⟨fun t ht => absurd ht (by simp), List.chain'_nil⟩⟩
  | succ n ih =>
    intro i s hi hsum
    have hicnt : i < cnt := by omega
    have hstart0 : 0 ≤ i * R / cnt := Int.ediv_nonneg (mul_nonneg hi hR.le) hcnt.le
    have hendle : (i + 1) * R / cnt ≤ R := by
      calc (i + 1) * R / cnt ≤ cnt * R / cnt :=
            Int.ediv_le_ediv hcnt (mul_le_mul_of_nonneg_right (by omega) hR.le)
        _ = R := Int.mul_ediv_cancel_left R (by omega)
    have hstartlt : i * R / cnt < R := by
      rw [Int.ediv_lt_iff_lt_mul hcnt]
      calc i * R < cnt * R := mul_lt_mul_of_pos_right hicnt hR
        _ = R * cnt := mul_comm _ _
    have hmono : i * R / cnt ≤ (i + 1) * R / cnt :=
      Int.ediv_le_ediv hcnt (mul_le_mul_of_nonneg_right (by omega) hR.le)
    rw [buildSlotTimes]
    by_cases hcase : max (i * R / cnt) ((i + 1) * R / cnt - 1) > i * R / cnt
    · obtain ⟨k, hk, hk1, hk2⟩ := randomInt_int_spec rng hrng (i * R / cnt)
        (max (i * R / cnt) ((i + 1) * R / cnt - 1)) s (le_max_left _ _)
      rw [if_pos hcase, hk]
      dsimp only
      obtain ⟨rest, s2, hrest, hlen, hbounds, hchain⟩ :=
        ih (i + 1) ((rng s).2) (by omega) (by omega)
      rw [hrest]
      dsimp only
      refine ⟨(start + k) :: rest, s2, rfl, by simp [hlen], ?_, ?_⟩
      · intro t ht
        rcases List.mem_cons.mp ht with ht | ht
        · subst ht
          constructor
          · omega
          · have hmax : max (i * R / cnt) ((i + 1) * R / cnt - 1) ≤ R - 1 := by
              apply max_le <;> omega
            omega
        · obtain ⟨hb1, hb2⟩ := hbounds t ht
          constructor
          · omega
          · exact hb2
      · rw [List.chain'_cons']
        refine ⟨?_, hchain⟩
        intro y hy
        have hymem : y ∈ rest := List.mem_of_mem_head? hy
        obtain ⟨hb1, _⟩ := hbounds y hymem
        have hkse : k ≤ (i + 1) * R / cnt := by
          have : max (i * R / cnt) ((i + 1) * R / cnt - 1) ≤ (i + 1) * R / cnt := by
            apply max_le <;> omega
          omega
        omega
    · rw [if_neg hcase]
      dsimp only
      obtain ⟨rest, s2, hrest, hlen, hbounds, hchain⟩ :=
        ih (i + 1) s (by omega) (by omega)
      rw [hrest]
      dsimp only
      refine ⟨(start + i * R / cnt) :: rest, s2, rfl, by simp [hlen], ?_, ?_⟩
      · intro t ht
        rcases List.mem_cons.mp ht with ht | ht
        · subst ht
          omega
        · obtain ⟨hb1, hb2⟩ := hbounds t ht
          constructor
          · omega
          · exact hb2
      · rw [List.chain'_cons']
        refine ⟨?_, hchain⟩
        intro y hy
        have hymem : y ∈ rest := List.mem_of_mem_head? hy
        obtain ⟨hb1, _⟩ := hbounds y hymem
        omega

/-- C3: for every date, every count at least 1, and every RNG stream with
draws in [0, 1), buildCommitTimes returns exactly count timestamps, each
inside the [09:00, 20:00) working window of that date, in non-decreasing
order; count 0 yields the empty sequence. -/
theorem buildCommitTimes_spec (rng : Nat → ℚ × Nat)
    (hrng : ∀ s, 0 ≤ (rng s).1 ∧ (rng s).1 < 1)
    (date : IsoDate) (count : Int) (s : Nat) :
    (1 ≤ count → ∃ ts s2, buildCommitTimes rng date count s = .ok (ts, s2) ∧
      ts.length = count.toNat ∧ List.Chain' (· ≤ ·) ts ∧
      ∀ t ∈ ts, dateAtHour date 9 ≤ t ∧ t < dateAtHour date 20) ∧
    (count = 0 → buildCommitTimes rng date count s = .ok ([], s)) := by
  have h20 : dateAtHour date 20 = dateAtHour date 9 + (20 - 9) * 60 * 60 := by
    unfold dateAtHour; ring
  constructor
  · intro h1
    simp only [buildCommitTimes]
    rw [if_neg (show ¬count ≤ 0 by omega),
      if_neg (show ¬((20 : Int) - 9) * 60 * 60 ≤ 0 by norm_num)]
    by_cases hc1 : count = 1
    · rw [if_pos hc1]
      obtain ⟨k, hk, hk1, hk2⟩ := randomInt_ok rng hrng 0
        (max (((((20 : Int) - 9) * 60 * 60 : Int) : ℚ) - 1) 0) s (by norm_num)
      rw [hk]
      dsimp only
      refine ⟨[dateAtHour date 9 + k], (rng s).2, rfl, ?_, List.chain'_singleton _, ?_⟩
      · rw [hc1]; rfl
      · intro t ht
        have ht2 := List.mem_singleton.mp ht
        subst ht2
        have hceil : Int.ceil ((0 : ℚ)) = 0 := by norm_num
        have hfloor :
            Int.floor (max (((((20 : Int) - 9) * 60 * 60 : Int) : ℚ) - 1) 0) = 39599 := by
          norm_num
        rw [hceil] at hk1
        rw [hfloor] at hk2
        omega
    · rw [if_neg hc1]
      obtain ⟨ts, s2, hts, hlen, hbounds, hchain⟩ :=
        buildSlotTimes_spec rng hrng (dateAtHour date 9) (((20 : Int) - 9) * 60 * 60)
          count (by norm_num) (by omega) count.toNat 0 s le_rfl (by omega)
      rw [hts]
      refine ⟨ts, s2, rfl, hlen, hchain, ?_⟩
      intro t ht
      obtain ⟨hb1, hb2⟩ := hbounds t ht
      have hz : (0 : Int) * (((20 : Int) - 9) * 60 * 60) / count = 0 := by
        rw [zero_mul, Int.zero_ediv]
      constructor
      · rw [hz] at hb1; omega
      · omega
  · intro h0
    simp only [buildCommitTimes]
    rw [if_pos (show count ≤ 0 by omega)]

theorem buildCommitTimes_spec_witness :
    (1 ≤ (3 : Int) → ∃ ts s2, buildCommitTimes rngNext wStart 3 0 = .ok (ts, s2) ∧
      ts.length = (3 : Int).toNat ∧ List.Chain' (· ≤ ·) ts ∧
      ∀ t ∈ ts, dateAtHour wStart 9 ≤ t ∧ t < dateAtHour wStart 20) ∧
    ((3 : Int) = 0 → buildCommitTimes rngNext wStart 3 0 = .ok ([], 0)) :=
  buildCommitTimes_spec rngNext rngNext_mem_Ico wStart 3 0

/-- C6: when dryRun is true, generateRepository returns an empty log
sample and performs no filesystem or version-control mutation; the
path-existence precondition is checked first, so an existing repoPath
yields the conflict error, again with no mutation. -/
theorem generateRepository_dryRun_conflict (options : GenerateRepoOptions)
    (pathExists : Bool) (now : String) (gitLogOutcome : Option (List String)) :
    (pathExists = true →
      generateRepository options pathExists now gitLogOutcome =
        (.error .pathAlreadyExists, [])) ∧
    (pathExists = false → options.dryRun = true →
      generateRepository options pathExists now gitLogOutcome = (.ok [], [])) := by
  constructor
  · intro h
    subst h
    rfl
  · intro h hd
    subst h
    simp [generateRepository, hd]

theorem generateRepository_dryRun_conflict_witness :
    generateRepository wOptsDry true "t" none = (.error .pathAlreadyExists, []) ∧
    generateRepository wOptsDry false "t" none = (.ok [], []) :=
  ⟨(generateRepository_dryRun_conflict wOptsDry true "t" none).1 rfl,
   (generateRepository_dryRun_conflict wOptsDry false "t" none).2 rfl rfl⟩

/-- C8 counterexample: the RNG driving mutation tokens and commit
timestamps is not built from the mutation-log seed itself; at an explicit
seed "abc" its initial state differs from `createRng` of that seed. -/
theorem mutationRng_not_plain_seed :
    mutationRngState wOptsSeeded ≠ createRng (mutationLogSeed wOptsSeeded) := by
  decide

/-- C8 (amended): the mutation RNG is built from the mutation-log seed
(the caller-supplied seed when present, else firstGridDate:lastGridDate)
with the constant suffix ":mutations" appended, as a fresh generator state
separate from the planning RNG. -/
theorem mutationRng_seed_spec (options : GenerateRepoOptions) :
    mutationRngState options =
      createRng (mutationLogSeed options ++ ":mutations") ∧
    mutationLogSeed options = options.randomSeed.getD
      (renderIsoDate options.summary.firstGridDate ++ ":" ++
        renderIsoDate options.summary.lastGridDate) ∧
    ∀ seedStr, options.randomSeed = some seedStr →
      mutationLogSeed options = seedStr := by
  refine ⟨rfl, rfl, ?_⟩
  intro seedStr h
  rw [mutationLogSeed, h]
  rfl

theorem mutationRng_seed_spec_witness :
    mutationRngState wOptsSeeded =
      createRng (mutationLogSeed wOptsSeeded ++ ":mutations") ∧
    mutationLogSeed wOptsSeeded = "abc" :=
  ⟨(mutationRng_seed_spec wOptsSeeded).1,
   (mutationRng_seed_spec wOptsSeeded).2.2 "abc" rfl⟩

theorem storeGet_storeSet_self (store : ProgressStore) (id : String)
    (st : ProgressState) : storeGet (storeSet store id st) id = some st := by
  induction store with
  | nil => rw [storeSet, storeGet, if_pos rfl]
  | cons p rest ih =>
    obtain ⟨k, v⟩ := p
    rw [storeSet]
    by_cases hk : k = id
    · rw [if_pos hk, storeGet, if_pos rfl]
    · rw [if_neg hk, storeGet, if_neg hk]
      exact ih

theorem storeGet_storeSet_other (store : ProgressStore) (k2 id : String)
    (st : ProgressState) (h : k2 ≠ id) :
    storeGet (storeSet store k2 st) id = storeGet store id := by
  induction store with
  | nil => simp [storeSet, storeGet, h]
  | cons p rest ih =>
    obtain ⟨k, v⟩ := p
    rw [storeSet]
    by_cases hk : k = k2
    · subst hk
      rw [if_pos rfl, storeGet, if_neg h, storeGet, if_neg]
      intro hc
      exact h (hc ▸ rfl)
    · rw [if_neg hk, storeGet, storeGet]
      by_cases hki : k = id
      · rw [if_pos hki, if_pos hki]
      · rw [if_neg hki, if_neg hki]
        exact ih

theorem ensureProgress_snd_get_other (i now : String) (store : ProgressStore)
    (id : String) (h : i ≠ id) :
    storeGet (ensureProgress i now store).2 id = storeGet store id := by
  rw [ensureProgress]
  cases hg : storeGet store i with
  | some v => rfl
  | none =>
    dsimp only
    exact storeGet_storeSet_other store i id _ h

/-- C7 counterexample: after completeProgress has made id "a" terminal,
an updateProgress for the same id moves its status back to running. -/
theorem progress_terminal_counterexample :
    (getProgress (applyOp (.complete "a" none "t1") []) "a").map
      (fun st => st.status) = some .complete ∧
    (getProgress (applyOp (.update "a" 50 none "t2")
        (applyOp (.complete "a" none "t1") [])) "a").map
      (fun st => st.status) = some .running := by
  constructor <;> rfl

/-- C7 (amended): complete and error are terminal with respect to every
tracker operation except an updateProgress or startProgress targeting the
same id; those two reset the id's status to running, while all other
operations (and operations on other ids) leave a terminal status
terminal. -/
theorem progress_terminal_amended (store : ProgressStore) (id : String)
    (op : TrackerOp)
    (hterm : isTerminal ((getProgress store id).map (fun st => st.status))) :
    (opRestartsId op id = false →
      isTerminal ((getProgress (applyOp op store) id).map (fun st => st.status))) ∧
    (opRestartsId op id = true →
      (getProgress (applyOp op store) id).map (fun st => st.status) =
        some .running) := by
  cases op with
  | ensure i now =>
    refine ⟨fun _ => ?_, fun hop => by simp [opRestartsId] at hop⟩
    rw [applyOp, getProgress]
    rw [ensureProgress]
    cases hg : storeGet store i with
    | some v => exact hterm
    | none =>
      dsimp only
      by_cases hi : i = id
      · subst hi
        rw [getProgress, hg] at hterm
        rcases hterm with h | h <;> cases h
      · rw [storeGet_storeSet_other store i id _ hi]
        exact hterm
  | start i msg now =>
    constructor
    · intro hop
      have hi : i ≠ id := by simpa [opRestartsId] using hop
      rw [applyOp, getProgress, startProgress]
      dsimp only
      rw [storeGet_storeSet_other store i id _ hi]
      exact hterm
    · intro hop
      have hi : i = id := by simpa [opRestartsId] using hop
      subst hi
      rw [applyOp, getProgress, startProgress]
      dsimp only
      rw [storeGet_storeSet_self]
      rfl
  | update i pct msg now =>
    constructor
    · intro hop
      have hi : i ≠ id := by simpa [opRestartsId] using hop
      rw [applyOp, getProgress, updateProgress]
      dsimp only
      rw [storeGet_storeSet_other _ i id _ hi, ensureProgress_snd_get_other i now store id hi]
      exact hterm
    · intro hop
      have hi : i = id := by simpa [opRestartsId] using hop
      subst hi
      rw [applyOp, getProgress, updateProgress]
      dsimp only
      rw [storeGet_storeSet_self]
      rfl
  | complete i msg now =>
    refine ⟨fun _ => ?_, fun hop => by simp [opRestartsId] at hop⟩
    rw [applyOp, getProgress, completeProgress]
    dsimp only
    by_cases hi : i = id
    · subst hi
      rw [storeGet_storeSet_self]
      exact Or.inl rfl
    · rw [storeGet_storeSet_other _ i id _ hi, ensureProgress_snd_get_other i now store id hi]
      exact hterm
  | fail i err now =>
    refine ⟨fun _ => ?_, fun hop => by simp [opRestartsId] at hop⟩
    rw [applyOp, getProgress, failProgress]
    dsimp only
    by_cases hi : i = id
    · subst hi
      rw [storeGet_storeSet_self]
      exact Or.inr rfl
    · rw [storeGet_storeSet_other _ i id _ hi, ensureProgress_snd_get_other i now store id hi]
      exact hterm

theorem progress_terminal_amended_witness :
    (opRestartsId (.update "a" 50 none "t2") "a" = false →
      isTerminal ((getProgress (applyOp (.update "a" 50 none "t2")
        (applyOp (.complete "a" none "t1") [])) "a").map (fun st => st.status))) ∧
    (opRestartsId (.update "a" 50 none "t2") "a" = true →
      (getProgress (applyOp (.update "a" 50 none "t2")
        (applyOp (.complete "a" none "t1") [])) "a").map (fun st => st.status) =
        some .running) :=
  progress_terminal_amended (applyOp (.complete "a" none "t1") []) "a"
    (.update "a" 50 none "t2") (by decide)

theorem mem_storeSet (store : ProgressStore) (id : String) (st : ProgressState)
    (p : String × ProgressState) (h : p ∈ storeSet store id st) :
    p = (id, st) ∨ p ∈ store := by
  induction store with
  | nil =>
    rw [storeSet] at h
    rcases List.mem_cons.mp h with h | h
    · exact Or.inl h
    · cases h
  | cons q rest ih =>
    obtain ⟨k, v⟩ := q
    rw [storeSet] at h
    by_cases hk : k = id
    · rw [if_pos hk] at h
      rcases List.mem_cons.mp h with h | h
      · exact Or.inl h
      · exact Or.inr (List.mem_cons_of_mem _ h)
    · rw [if_neg hk] at h
      rcases List.mem_cons.mp h with h | h
      · exact Or.inr (h ▸ List.mem_cons_self _ _)
      · rcases ih h with h2 | h2
        · exact Or.inl h2
        · exact Or.inr (List.mem_cons_of_mem _ h2)

theorem storeGet_some_mem (store : ProgressStore) (id : String)
    (v : ProgressState) (h : storeGet store id = some v) :
    ∃ k, (k, v) ∈ store := by
  induction store with
  | nil => cases h
  | cons q rest ih =>
    obtain ⟨k0, v0⟩ := q
    rw [storeGet] at h
    by_cases hk : k0 = id
    · rw [if_pos hk] at h
      injection h with h1
      exact ⟨k0, h1 ▸ List.mem_cons_self _ _⟩
    · rw [if_neg hk] at h
      obtain ⟨k, hm⟩ := ih h
      exact ⟨k, List.mem_cons_of_mem _ hm⟩

theorem clampProgress_bounds (x : ℚ) :
    ((clampProgress x : Int) : ℚ).den = 1 ∧
    (0 : ℚ) ≤ ((clampProgress x : Int) : ℚ) ∧
    ((clampProgress x : Int) : ℚ) ≤ 100 := by
  have h : 0 ≤ clampProgress x ∧ clampProgress x ≤ 100 := by
    unfold clampProgress; omega
  refine ⟨Rat.den_intCast _, ?_, ?_⟩
  · exact_mod_cast h.1
  · exact_mod_cast h.2

theorem ensureProgress_invariant (id now : String) (store : ProgressStore)
    (hinv : storeInvariant store) :
    storeInvariant (ensureProgress id now store).2 ∧
    progressIntegral (ensureProgress id now store).1 := by
  rw [ensureProgress]
  cases hg : storeGet store id with
  | some v =>
    refine ⟨hinv, ?_⟩
    obtain ⟨k, hm⟩ := storeGet_some_mem store id v hg
    exact hinv (k, v) hm
  | none =>
    dsimp only
    constructor
    · intro p hp
      rcases mem_storeSet store id _ p hp with hp | hp
      · rw [hp]
        exact ⟨rfl, by norm_num, by norm_num⟩
      · exact hinv p hp
    · exact ⟨rfl, by norm_num, by norm_num⟩

/-- C9: every ProgressState stored by any tracker operation has progress
equal to an integer in [0, 100]: the empty store satisfies the invariant,
every operation preserves it (updateProgress rounds its percent to the
nearest integer before clamping, ensureProgress and startProgress store 0,
completeProgress stores 100, failProgress preserves the previous in-range
value), and the state published by updateProgress carries exactly the
rounded-then-clamped percent. -/
theorem progress_store_invariant :
    storeInvariant ([] : ProgressStore) ∧
    (∀ (op : TrackerOp) (store : ProgressStore), storeInvariant store →
      storeInvariant (applyOp op store)) ∧
    (∀ (id : String) (pct : ℚ) (msg : Option String) (now : String)
      (store : ProgressStore),
      (updateProgress id pct msg now store).1.progress =
        ((clampProgress pct : Int) : ℚ)) := by
  refine ⟨fun p hp => absurd hp (by simp), ?_, fun id pct msg now store => rfl⟩
  intro op store hinv
  cases op with
  | ensure i now => exact (ensureProgress_invariant i now store hinv).1
  | start i msg now =>
    rw [applyOp, startProgress]
    intro p hp
    rcases mem_storeSet store i _ p hp with hp | hp
    · rw [hp]
      exact ⟨rfl, by norm_num, by norm_num⟩
    · exact hinv p hp
  | update i pct msg now =>
    rw [applyOp, updateProgress]
    dsimp only
    intro p hp
    rcases mem_storeSet _ i _ p hp with hp | hp
    · rw [hp]
      exact clampProgress_bounds pct
    · exact (ensureProgress_invariant i now store hinv).1 p hp
  | complete i msg now =>
    rw [applyOp, completeProgress]
    dsimp only
    intro p hp
    rcases mem_storeSet _ i _ p hp with hp | hp
    · rw [hp]
      exact ⟨rfl, by norm_num, by norm_num⟩
    · exact (ensureProgress_invariant i now store hinv).1 p hp
  | fail i err now =>
    rw [applyOp, failProgress]
    dsimp only
    intro p hp
    rcases mem_storeSet _ i _ p hp with hp | hp
    · rw [hp]
      exact (ensureProgress_invariant i now store hinv).2
    · exact (ensureProgress_invariant i now store hinv).1 p hp

theorem progress_store_invariant_witness :
    storeInvariant (applyOp (.update "a" (101 / 2) none "t2")
      (applyOp (.complete "a" none "t1") [])) :=
  progress_store_invariant.2.1 (.update "a" (101 / 2) none "t2")
    (applyOp (.complete "a" none "t1") []) (by decide)

